import Mathlib

/-!
# Verification of the macctl telemetry core

Shallow embedding of the telemetry core of the `macctl` repository:
the power-event line classifier (`internal/events/events.go`), the event
deduplicator (spec §4.3; implementation absent from the provided sources),
the duration parser and the persisted snapshot history stores
(`internal/power/history.go`, `internal/disk`).

Strings are modeled as `List Char`; Go byte-level operations coincide with
this model on the ASCII inputs all claims are about.  Go's `int64`
arithmetic is modeled exactly (range checks and two's-complement wrapping
where the source can overflow).
-/

namespace Macctl

/-- Characters of a string literal. -/
def strChars (s : String) : List Char := s.data

/-- Value of a decimal digit character. -/
def digitVal (c : Char) : Nat := c.toNat - 48

/-- Decimal digit character for a value `< 10`. -/
def digitChar (d : Nat) : Char := Char.ofNat (48 + d)

/-- ASCII decimal digit test (RE2 `\d`, Go `isDigit`). -/
def isDigitCh (c : Char) : Bool := 48 ≤ c.toNat && c.toNat ≤ 57

/-- Accumulate a run of decimal digit characters into a number
(the way `fmt`'s `%d` verb and `strconv` consume digit runs). -/
def charsVal (l : List Char) : Nat := l.foldl (fun a c => a * 10 + digitVal c) 0

/-- Decimal digits of a natural number, most significant first; the first
argument is computation fuel (any amount `≥ n` gives the digits of `n`). -/
def natToCharsAux : Nat → Nat → List Char → List Char
  | 0, _, acc => acc
  | _ + 1, 0, acc => acc
  | fuel + 1, n + 1, acc =>
    natToCharsAux fuel ((n + 1) / 10) (digitChar ((n + 1) % 10) :: acc)

/-- Decimal representation of a natural number (Go `%d` of a non-negative int). -/
def natToChars (n : Nat) : List Char :=
  if n = 0 then [digitChar 0] else natToCharsAux n n []

/-- Decimal representation of an integer (Go `%d`). -/
def intToChars (n : Int) : List Char :=
  if n < 0 then '-' :: natToChars n.natAbs else natToChars n.natAbs

theorem natToCharsAux_append (fuel : Nat) :
    ∀ (n : Nat) (acc : List Char),
      natToCharsAux fuel n acc = natToCharsAux fuel n [] ++ acc := by
  induction fuel with
  | zero => intro n acc; simp [natToCharsAux]
  | succ fuel ih =>
    intro n acc
    match n with
    | 0 => simp [natToCharsAux]
    | m + 1 =>
      rw [natToCharsAux, natToCharsAux,
        ih ((m + 1) / 10) (digitChar ((m + 1) % 10) :: acc),
        ih ((m + 1) / 10) (digitChar ((m + 1) % 10) :: [])]
      simp

theorem digitChar_isDigit (d : Nat) (h : d < 10) : isDigitCh (digitChar d) = true := by
  interval_cases d <;> decide

theorem digitVal_digitChar (d : Nat) (h : d < 10) : digitVal (digitChar d) = d := by
  interval_cases d <;> decide

theorem charsVal_append (l1 l2 : List Char) :
    charsVal (l1 ++ l2) = l2.foldl (fun a c => a * 10 + digitVal c) (charsVal l1) := by
  simp [charsVal, List.foldl_append]

theorem natToCharsAux_spec (fuel : Nat) :
    ∀ n : Nat, n ≤ fuel →
      charsVal (natToCharsAux fuel n []) = n ∧
      (∀ c ∈ natToCharsAux fuel n [], isDigitCh c = true) ∧
      (1 ≤ n → natToCharsAux fuel n [] ≠ []) := by
  induction fuel with
  | zero =>
    intro n hn
    interval_cases n
    refine ⟨by decide, by simp [natToCharsAux], by omega⟩
  | succ fuel ih =>
    intro n hn
    match n with
    | 0 => exact ⟨by simp [natToCharsAux, charsVal], by simp [natToCharsAux], by omega⟩
    | m + 1 =>
      have hq : (m + 1) / 10 ≤ fuel := by
        have := Nat.div_lt_self (Nat.succ_pos m) (show 1 < 10 by omega)
        omega
      obtain ⟨hval, hdig, _⟩ := ih ((m + 1) / 10) hq
      have hlt : (m + 1) % 10 < 10 := Nat.mod_lt _ (by omega)
      rw [natToCharsAux, natToCharsAux_append]
      refine ⟨?_, ?_, ?_⟩
      · rw [charsVal_append, hval]
        simp [digitVal_digitChar _ hlt]
        omega
      · intro c hc
        rcases List.mem_append.1 hc with h1 | h1
        · exact hdig c h1
        · simp at h1
          subst h1
          exact digitChar_isDigit _ hlt
      · intro _
        simp

theorem charsVal_natToChars (n : Nat) : charsVal (natToChars n) = n := by
  unfold natToChars
  split
  · rename_i h; subst h; decide
  · exact (natToCharsAux_spec n n le_rfl).1

theorem natToChars_digits (n : Nat) : ∀ c ∈ natToChars n, isDigitCh c = true := by
  unfold natToChars
  split
  · intro c hc; simp at hc; subst hc; decide
  · exact (natToCharsAux_spec n n le_rfl).2.1

theorem natToChars_ne_nil (n : Nat) : natToChars n ≠ [] := by
  unfold natToChars
  split
  · simp
  · rename_i h
    exact (natToCharsAux_spec n n le_rfl).2.2 (by omega)

/-! ## Go string helpers used by `internal/events` -/

/-- The space character (written via its code point). -/
def spaceChar : Char := Char.ofNat 32

/-- RE2's `\s` character class: `[\t\n\f\r ]`. -/
def reIsSpace (c : Char) : Bool :=
  c.toNat = 9 || c.toNat = 10 || c.toNat = 12 || c.toNat = 13 || c.toNat = 32

/-- Go `unicode.IsSpace` restricted to Latin-1:
tab, newline, vertical tab, form feed, carriage return, space, NEL, NBSP. -/
def uIsSpace (c : Char) : Bool :=
  c.toNat = 9 || c.toNat = 10 || c.toNat = 11 || c.toNat = 12 ||
  c.toNat = 13 || c.toNat = 32 || c.toNat = 133 || c.toNat = 160

/-- Go `strings.TrimSpace`. -/
def trimSpace (l : List Char) : List Char :=
  ((l.dropWhile uIsSpace).reverse.dropWhile uIsSpace).reverse

/-- Whether `pat` is a prefix of the second list (Go `strings.HasPrefix`). -/
def prefixMatch : List Char → List Char → Bool
  | [], _ => true
  | _ :: _, [] => false
  | a :: as, b :: bs => a == b && prefixMatch as bs

/-- Go `strings.Contains hay pat`. -/
def containsSub (hay pat : List Char) : Bool :=
  match hay with
  | [] => pat.isEmpty
  | _ :: t => prefixMatch pat hay || containsSub t pat

/-- Go `strings.SplitN(s, "  ", 2)`: split at the first occurrence of two
consecutive spaces.  `some (before, after)` when the separator occurs,
`none` when it does not (Go returns a single part). -/
def splitTwoSpace : List Char → Option (List Char × List Char)
  | [] => none
  | c :: rest =>
    if c = spaceChar then
      match rest with
      | [] => none
      | c2 :: rest2 =>
        if c2 = spaceChar then some ([], rest2)
        else
          match splitTwoSpace rest with
          | some (a, b) => some (c :: a, b)
          | none => none
    else
      match splitTwoSpace rest with
      | some (a, b) => some (c :: a, b)
      | none => none

/-- `extractDetail` from `internal/events/events.go`: strip the text before
the first two-space run if present, else truncate at 200 characters with an
ellipsis when longer, else trim surrounding whitespace.
(Go measures `len(s)` in bytes; on the ASCII inputs of the claims this
coincides with the character count used here.) -/
def extractDetail (s : List Char) : List Char :=
  match splitTwoSpace s with
  | some (_, after) => trimSpace after
  | none =>
    if 200 < s.length then s.take 200 ++ strChars "..."
    else trimSpace s

/-! ## The leading-timestamp regular expression

`timestampRe = ^(\d{4}-\d{2}-\d{2}\s+\d{2}:\d{2}:\d{2}\.\d+(?:[+-]\d{4})?)\s+`

The matcher below is the deterministic reading of this anchored pattern:
every subpattern boundary separates disjoint character classes, so greedy
(maximal-munch) matching agrees with the regex engine; the one needed
backtracking point — the optional offset group — is handled explicitly in
`matchOffsetSpaces`. -/

/-- Exactly `n` decimal digits. -/
def takeExactDigits : Nat → List Char → Option (List Char × List Char)
  | 0, l => some ([], l)
  | _ + 1, [] => none
  | n + 1, c :: l =>
    if isDigitCh c then
      match takeExactDigits n l with
      | some (ds, r) => some (c :: ds, r)
      | none => none
    else none

/-- `\d+` (greedy, at least one digit). -/
def takeDigits1 (l : List Char) : Option (List Char × List Char) :=
  match l with
  | [] => none
  | c :: _ =>
    if isDigitCh c then some (l.takeWhile isDigitCh, l.dropWhile isDigitCh)
    else none

/-- `\s+` (greedy, at least one whitespace character). -/
def takeSpaces1 (l : List Char) : Option (List Char × List Char) :=
  match l with
  | [] => none
  | c :: _ =>
    if reIsSpace c then some (l.takeWhile reIsSpace, l.dropWhile reIsSpace)
    else none

/-- `\d{4}-\d{2}-\d{2}`. -/
def matchDate (l : List Char) : Option (List Char × List Char) :=
  match takeExactDigits 4 l with
  | none => none
  | some (y, l1) =>
    match l1 with
    | '-' :: l2 =>
      match takeExactDigits 2 l2 with
      | none => none
      | some (mo, l3) =>
        match l3 with
        | '-' :: l4 =>
          match takeExactDigits 2 l4 with
          | none => none
          | some (d, l5) => some (y ++ '-' :: mo ++ '-' :: d, l5)
        | _ => none
    | _ => none

/-- `\d{2}:\d{2}:\d{2}`. -/
def matchTime (l : List Char) : Option (List Char × List Char) :=
  match takeExactDigits 2 l with
  | none => none
  | some (h, l1) =>
    match l1 with
    | ':' :: l2 =>
      match takeExactDigits 2 l2 with
      | none => none
      | some (mi, l3) =>
        match l3 with
        | ':' :: l4 =>
          match takeExactDigits 2 l4 with
          | none => none
          | some (s, l5) => some (h ++ ':' :: mi ++ ':' :: s, l5)
        | _ => none
    | _ => none

/-- `\.\d+`: the mandatory fractional-seconds part of `timestampRe`. -/
def matchFrac : List Char → Option (List Char × List Char)
  | [] => none
  | c :: l =>
    if c = '.' then
      match takeDigits1 l with
      | some (ds, r) => some (c :: ds, r)
      | none => none
    else none

/-- `(?:[+-]\d{4})?\s+`: the optional offset followed by mandatory trailing
whitespace.  When the offset alternative matches but no whitespace follows,
the regex backtracks to the empty alternative — whose `\s+` then fails on
the sign character — so the overall result is `none` in that case too. -/
def matchOffsetSpaces (l : List Char) : Option (List Char × List Char) :=
  match l with
  | [] => none
  | c :: l1 =>
    if c = '+' || c = '-' then
      match takeExactDigits 4 l1 with
      | some (ds, l2) =>
        match takeSpaces1 l2 with
        | some (_, r) => some (c :: ds, r)
        | none => none
      | none => none
    else
      match takeSpaces1 l with
      | some (_, r) => some ([], r)
      | none => none

/-- Anchored match of `timestampRe` against a line: returns the captured
group `m[1]` (the timestamp text) and the remainder of the line after the
full match `m[0]` (i.e. after the trailing whitespace). -/
def matchTimestamp (l : List Char) : Option (List Char × List Char) :=
  match matchDate l with
  | none => none
  | some (d, l1) =>
    match takeSpaces1 l1 with
    | none => none
    | some (sp, l2) =>
      match matchTime l2 with
      | none => none
      | some (t, l3) =>
        match matchFrac l3 with
        | none => none
        | some (f, l4) =>
          match matchOffsetSpaces l4 with
          | none => none
          | some (off, rest) => some (d ++ sp ++ t ++ f ++ off, rest)

/-! ## `parseTimestamp`: Go `time.Parse` against the six layout variants -/

/-- The wall-clock fields Go's `time.Parse` extracts from one of the six
layouts.  A missing UTC offset (`offsetMinutes = none`) is Go's
"naive local time" case, preserved as such. -/
structure GoTime where
  year : Nat
  month : Nat
  day : Nat
  hour : Nat
  minute : Nat
  second : Nat
  nanos : Nat
  offsetMinutes : Option Int
deriving DecidableEq, Repr

/-- Go `getnum(value, false)` for the `"15"` hour element: one or two digits. -/
def getnum2 : List Char → Option (Nat × List Char)
  | [] => none
  | [c] => if isDigitCh c then some (digitVal c, []) else none
  | c1 :: c2 :: r =>
    if isDigitCh c1 then
      if isDigitCh c2 then some (digitVal c1 * 10 + digitVal c2, r)
      else some (digitVal c1, c2 :: r)
    else none

def isLeap (y : Nat) : Bool := y % 4 = 0 && (y % 100 ≠ 0 || y % 400 = 0)

def daysInMonth (y m : Nat) : Nat :=
  if m = 2 then (if isLeap y then 29 else 28)
  else if m = 4 || m = 6 || m = 9 || m = 11 then 30
  else 31

/-- `".000"` / `".000000"`: a dot and exactly `frac` digits (when `frac ≠ 0`),
scaled to nanoseconds. -/
def parseFracPart (frac : Nat) (l : List Char) : Option (Nat × List Char) :=
  if frac = 0 then some (0, l)
  else
    match l with
    | '.' :: l1 =>
      match takeExactDigits frac l1 with
      | some (ds, r) => some (charsVal ds * 10 ^ (9 - frac), r)
      | none => none
    | _ => none

/-- `"-0700"`: sign, two offset-hour digits, two offset-minute digits. -/
def parseOffPart (withOff : Bool) (l : List Char) : Option (Option Int × List Char) :=
  if withOff then
    match l with
    | [] => none
    | c :: l1 =>
      if c = '+' || c = '-' then
        match takeExactDigits 2 l1 with
        | none => none
        | some (oh, l2) =>
          match takeExactDigits 2 l2 with
          | none => none
          | some (om, r) =>
            let mins : Int := (charsVal oh : Int) * 60 + (charsVal om : Int)
            some (some (if c = '-' then -mins else mins), r)
      else none
  else some (none, l)

/-- Go `Parse`'s final range validation (month, day-in-month, hour, minute,
second). -/
def mkValid (y mo d h mi s ns : Nat) (off : Option Int) : Option GoTime :=
  if 1 ≤ mo ∧ mo ≤ 12 ∧ 1 ≤ d ∧ d ≤ daysInMonth y mo ∧ h ≤ 23 ∧ mi ≤ 59 ∧ s ≤ 59
  then some ⟨y, mo, d, h, mi, s, ns, off⟩
  else none

/-- Go `time.Parse` with layout `"2006-01-02 15:04:05" + frac + offset`:
four-digit year, fixed two-digit month/day/minute/second, one literal
space, one-or-two-digit hour, and full consumption of the input. -/
def parseLayout (frac : Nat) (withOff : Bool) (l : List Char) : Option GoTime :=
  match takeExactDigits 4 l with
  | none => none
  | some (ys, l1) =>
    match l1 with
    | '-' :: l2 =>
      match takeExactDigits 2 l2 with
      | none => none
      | some (mos, l3) =>
        match l3 with
        | '-' :: l4 =>
          match takeExactDigits 2 l4 with
          | none => none
          | some (ds, l5) =>
            match l5 with
            | [] => none
            | c :: l6 =>
              if c = spaceChar then
                match getnum2 l6 with
                | none => none
                | some (hh, l7) =>
                  match l7 with
                  | ':' :: l8 =>
                    match takeExactDigits 2 l8 with
                    | none => none
                    | some (mis, l9) =>
                      match l9 with
                      | ':' :: l10 =>
                        match takeExactDigits 2 l10 with
                        | none => none
                        | some (ses, l11) =>
                          match parseFracPart frac l11 with
                          | none => none
                          | some (ns, l12) =>
                            match parseOffPart withOff l12 with
                            | none => none
                            | some (off, l13) =>
                              if l13 = [] then
                                mkValid (charsVal ys) (charsVal mos) (charsVal ds)
                                  hh (charsVal mis) (charsVal ses) ns off
                              else none
                      | _ => none
                  | _ => none
              else none
        | _ => none
    | _ => none

/-- `parseTimestamp` from `internal/events/events.go`: try the six concrete
layouts in order, most specific first. -/
def parseTimestamp (l : List Char) : Option GoTime :=
  parseLayout 6 true l <|> parseLayout 3 true l <|> parseLayout 0 true l <|>
  parseLayout 6 false l <|> parseLayout 3 false l <|> parseLayout 0 false l

/-- Days from the civil epoch 1970-01-01 (Gregorian, proleptic). -/
def daysFromCivil (y m d : Nat) : Int :=
  let yi : Int := if m ≤ 2 then (y : Int) - 1 else (y : Int)
  let era : Int := (if 0 ≤ yi then yi else yi - 399) / 400
  let yoe : Int := yi - era * 400
  let mp : Int := ((m : Int) + 9) % 12
  let doy : Int := (153 * mp + 2) / 5 + (d : Int) - 1
  let doe : Int := yoe * 365 + yoe / 4 - yoe / 100 + doy
  era * 146097 + doe - 719468

/-- The instant of a parsed timestamp in nanoseconds since the epoch
(Go `time.Time`'s internal reading).  A timestamp without offset is naive
local time; it is modeled by its wall-clock reading (offset 0) — no claim
compares instants across the two conventions. -/
def goTimeToNanos (t : GoTime) : Int :=
  (daysFromCivil t.year t.month t.day * 86400
    + (t.hour : Int) * 3600 + (t.minute : Int) * 60 + (t.second : Int)
    - (t.offsetMinutes.getD 0) * 60) * 1000000000 + (t.nanos : Int)

/-! ## The line classifier `parseLine` -/

/-- `PowerEvent` of `internal/events`.  The `count` field
(`occurrence_count`) belongs to the deduplicating version of the package
(its declaration is not among the provided sources); per the spec the
classifier emits every event with `occurrence_count = 1`. -/
structure PowerEvent where
  timestamp : Int
  type : String
  detail : List Char
  count : Nat
deriving DecidableEq, Repr

def EventWake : String := "wake"
def EventSleep : String := "sleep"
def EventLidOpen : String := "lid_open"
def EventLidClose : String := "lid_close"
def EventThermal : String := "thermal_throttle"
def EventPowerSource : String := "power_source_change"
def EventPowerUnknown : String := "power_event"

/-- `lower` contains any of the keywords. -/
def hasAny (lower : List Char) (kws : List String) : Bool :=
  kws.any (fun k => containsSub lower (strChars k))

/-- `parseLine` from `internal/events/events.go`: match the leading
timestamp, parse it, then classify the lowercased remainder by the ordered
keyword groups (first match wins); unmatched lines are discarded.
(`Char.toLower` is the ASCII lowering, agreeing with Go's `strings.ToLower`
on the ASCII log lines of the claims.) -/
def parseLine (l : List Char) : Option PowerEvent :=
  match matchTimestamp l with
  | none => none
  | some (m1, rest) =>
    match parseTimestamp m1 with
    | none => none
    | some gt =>
      let ts := goTimeToNanos gt
      let lower := rest.map Char.toLower
      if hasAny lower ["wake reason", "waking", "display wake", "darkwake", "fullwake"] then
        some ⟨ts, EventWake, extractDetail rest, 1⟩
      else if hasAny lower ["sleep reason", "entering sleep", "going to sleep",
          "maintenance sleep", "sleepservice"] then
        some ⟨ts, EventSleep, extractDetail rest, 1⟩
      else if hasAny lower ["lidopen", "lid open"] then
        some ⟨ts, EventLidOpen, extractDetail rest, 1⟩
      else if hasAny lower ["lidclose", "lid close", "clamshell"] then
        some ⟨ts, EventLidClose, extractDetail rest, 1⟩
      else if containsSub lower (strChars "thermal") &&
          (containsSub lower (strChars "throttl") || containsSub lower (strChars "pressure")) then
        some ⟨ts, EventThermal, extractDetail rest, 1⟩
      else if hasAny lower ["power source", "ac power", "battery power", "accpowersources"] then
        some ⟨ts, EventPowerSource, extractDetail rest, 1⟩
      else none

/-! ## The event deduplicator -/

/-- Modelled from the spec: the loop body of `DeduplicateEvents`
(spec §4.3); the implementation is absent from the provided sources — only
its test (`TestDeduplicateEvents`) and its caller (`internal/cli/events.go`)
are present.  `cur` is the retained event of the open group, `lastSeen` the
group's most recently merged timestamp (sliding window). -/
def dedupGo (w : Int) (cur : PowerEvent) (lastSeen : Int) :
    List PowerEvent → List PowerEvent
  | [] => [cur]
  | e :: es =>
    if e.type = cur.type ∧ e.timestamp - lastSeen ≤ w then
      dedupGo w { cur with count := cur.count + 1 } e.timestamp es
    else
      cur :: dedupGo w { e with count := 1 } e.timestamp es

/-- Modelled from the spec: `DeduplicateEvents(events, window)` merges
consecutive same-category events whose timestamp is within `window` of the
group's most recently merged timestamp into one record carrying an
occurrence count; empty input yields empty output (spec §4.3). -/
def DeduplicateEvents (events : List PowerEvent) (window : Int) : List PowerEvent :=
  match events with
  | [] => []
  | e :: es => dedupGo window { e with count := 1 } e.timestamp es

/-- Each event is at most `w` after the running predecessor timestamp. -/
def gapsWithin (w : Int) : Int → List PowerEvent → Bool
  | _, [] => true
  | prev, e :: es => decide (e.timestamp - prev ≤ w) && gapsWithin w e.timestamp es

/-- Non-decreasing timestamps. -/
def chronOrdered : List PowerEvent → Bool
  | [] => true
  | [_] => true
  | a :: b :: r => decide (a.timestamp ≤ b.timestamp) && chronOrdered (b :: r)

/-! ## `ParseDuration` from `internal/power/history.go` -/

/-- Largest Go `int64`. -/
def int64MaxN : Nat := 9223372036854775807

/-- Two's-complement wrap of Go `int64` arithmetic. -/
def wrap64 (x : Int) : Int :=
  (x + 9223372036854775808) % 18446744073709551616 - 9223372036854775808

/-- Read a maximal run of decimal digits (at least one) and its value. -/
def readNat (l : List Char) : Option (Nat × List Char) :=
  match l with
  | [] => none
  | c :: _ =>
    if isDigitCh c then some (charsVal (l.takeWhile isDigitCh), l.dropWhile isDigitCh)
    else none

/-- Go `fmt.Sscanf(numStr, "%d", &num)` with `num : int`: skip leading
spaces/tabs, read an optionally signed decimal integer, ignore whatever
follows; fail if no digits follow the (optional) sign or the value
overflows `int64`. -/
def sscanfInt (l : List Char) : Option Int :=
  let l1 := l.dropWhile (fun c => c.toNat = 32 || c.toNat = 9)
  match l1 with
  | [] => none
  | c :: r =>
    if c = '+' then
      match readNat r with
      | some (v, _) => if v ≤ int64MaxN then some (v : Int) else none
      | none => none
    else if c = '-' then
      match readNat r with
      | some (v, _) => if v ≤ int64MaxN + 1 then some (-(v : Int)) else none
      | none => none
    else
      match readNat (c :: r) with
      | some (v, _) => if v ≤ int64MaxN then some (v : Int) else none
      | none => none

/-- Nanoseconds per Go `time.Minute` / `time.Hour`. -/
def minuteNs : Int := 60000000000
def hourNs : Int := 3600000000000

/-- `ParseDuration` from `internal/power/history.go`: last byte is the unit,
the rest is scanned with `%d`; rejects length < 2, unscannable number,
non-positive number and unknown unit.  The multiplications
`time.Duration(num) * time.Minute` etc. are `int64` multiplications and
wrap on overflow (`"7d"` is `(num * 24) * Hour`, left-associated). -/
def ParseDuration (s : List Char) : Option Int :=
  if s.length < 2 then none
  else
    match s.getLast? with
    | none => none
    | some unit =>
      match sscanfInt s.dropLast with
      | none => none
      | some num =>
        if num ≤ 0 then none
        else if unit = 'm' then some (wrap64 (num * minuteNs))
        else if unit = 'h' then some (wrap64 (num * hourNs))
        else if unit = 'd' then some (wrap64 (wrap64 (num * 24) * hourNs))
        else none

/-! ## The persisted snapshot history stores

The two stores (`internal/power/history.go` and the disk history) persist a
pretty-printed JSON array of snapshot objects via `encoding/json` and read
it back with `json.Unmarshal`.  The JSON layer is modeled at the level of
the JSON value: a history file either holds a JSON document or text that is
not valid JSON.  `encoding/json`'s documented decoding semantics are
mirrored: top-level `null` leaves the slice `nil` (no error); a non-array
top level or a non-object element is a type error; unknown object keys are
ignored; missing keys and `null` values leave a field at its zero value;
a wrongly-typed value is an error.  `time.Time`'s JSON form is an injective
string encoding of the instant whose decode fails on malformed input; it is
modeled by the decimal string of the instant.  JSON numbers are modeled as
integers (`float64` fields carry integer-valued numerics; no claim depends
on float semantics). -/

inductive Json where
  | null
  | bool (b : Bool)
  | num (n : Int)
  | str (s : List Char)
  | arr (elems : List Json)
  | obj (fields : List (String × Json))

/-- Content of a history file: a JSON document, or bytes that are not
valid JSON. -/
inductive FileData where
  | json (j : Json)
  | notJson (raw : List Char)

/-- Decode the decimal string encoding of an instant (inverse of
`intToChars`); fails unless the whole string is a well-formed integer. -/
def decodeDecimal (l : List Char) : Option Int :=
  match l with
  | [] => none
  | c :: r =>
    if c = '-' then
      match readNat r with
      | some (v, rest) => if rest = [] then some (-(v : Int)) else none
      | none => none
    else
      match readNat (c :: r) with
      | some (v, rest) => if rest = [] then some ((v : Int)) else none
      | none => none

/-- First binding of `k` in an object's field list. -/
def jLookup (fields : List (String × Json)) (k : String) : Option Json :=
  match fields with
  | [] => none
  | (k', v) :: fs => if k' = k then some v else jLookup fs k

/-- Decode a JSON value into a Go integer field: absent or `null` leaves
the zero value; a number is taken; anything else is a type error. -/
def decodeIntField : Option Json → Option Int
  | none => some 0
  | some .null => some 0
  | some (.num n) => some n
  | some _ => none

def decodeBoolField : Option Json → Option Bool
  | none => some false
  | some .null => some false
  | some (.bool b) => some b
  | some _ => none

def decodeStrField : Option Json → Option (List Char)
  | none => some []
  | some .null => some []
  | some (.str s) => some s
  | some _ => none

/-- Decode a JSON value into a `time.Time` field (string-encoded instant;
`null` and absence leave the zero instant). -/
def decodeTimeField : Option Json → Option Int
  | none => some 0
  | some .null => some 0
  | some (.str s) => decodeDecimal s
  | some _ => none

namespace Power

/-- `MaxHistoryEntries` from `internal/power/history.go`. -/
def MaxHistoryEntries : Nat := 500

/-- `DefaultHistoryCount` from `internal/power/history.go`. -/
def DefaultHistoryCount : Nat := 20

/-- `Snapshot` from `internal/power/history.go`.  `Temperature` is a Go
`float64`; it is modeled as an integer-valued numeric, as no claim under
verification depends on float semantics. -/
structure Snapshot where
  timestamp : Int
  batteryPct : Int
  isCharging : Bool
  cycleCount : Int
  maxCapacity : Int
  temperature : Int
  thermalLevel : List Char
deriving DecidableEq, Repr

/-- `encoding/json` marshaling of one snapshot, by the struct's JSON tags. -/
def encodeSnapshot (s : Snapshot) : Json :=
  .obj [("timestamp", .str (intToChars s.timestamp)),
        ("battery_pct", .num s.batteryPct),
        ("is_charging", .bool s.isCharging),
        ("cycle_count", .num s.cycleCount),
        ("max_capacity_mah", .num s.maxCapacity),
        ("temperature_celsius", .num s.temperature),
        ("thermal_level", .str s.thermalLevel)]

/-- `encoding/json` unmarshaling of one snapshot: `null` leaves the zero
struct, an object is decoded field-wise (unknown keys ignored, absent keys
zeroed), anything else is a type error. -/
def decodeSnapshot : Json → Option Snapshot
  | .null => some ⟨0, 0, false, 0, 0, 0, []⟩
  | .obj fs => do
    let t ← decodeTimeField (jLookup fs "timestamp")
    let bp ← decodeIntField (jLookup fs "battery_pct")
    let ch ← decodeBoolField (jLookup fs "is_charging")
    let cc ← decodeIntField (jLookup fs "cycle_count")
    let mc ← decodeIntField (jLookup fs "max_capacity_mah")
    let te ← decodeIntField (jLookup fs "temperature_celsius")
    let tl ← decodeStrField (jLookup fs "thermal_level")
    some ⟨t, bp, ch, cc, mc, te, tl⟩
  | _ => none

/-- Element-wise decoding of the JSON array. -/
def decodeSnapshots : List Json → Option (List Snapshot)
  | [] => some []
  | j :: js =>
    match decodeSnapshot j with
    | none => none
    | some s =>
      match decodeSnapshots js with
      | none => none
      | some l => some (s :: l)

/-- `json.Unmarshal(data, &snapshots)` on a history file's content. -/
def unmarshalSnapshots : FileData → Option (List Snapshot)
  | .notJson _ => none
  | .json .null => some []
  | .json (.arr es) => decodeSnapshots es
  | .json _ => none

/-- `json.MarshalIndent(snapshots, ...)`. -/
def marshalSnapshots (l : List Snapshot) : FileData :=
  .json (.arr (l.map encodeSnapshot))

inductive HistoryError where
  | corruptHistory
deriving DecidableEq, Repr

/-- `LoadHistory` from `internal/power/history.go`: an absent file is an
empty history (not an error); content that fails to unmarshal is a corrupt
history error (and no data is returned). -/
def LoadHistory (file : Option FileData) : Except HistoryError (List Snapshot) :=
  match file with
  | none => .ok []
  | some d =>
    match unmarshalSnapshots d with
    | some l => .ok l
    | none => .error .corruptHistory

/-- `SaveHistory` from `internal/power/history.go`: trim to the most recent
`MaxHistoryEntries` by truncating from the front
(`snapshots[len(snapshots)-MaxHistoryEntries:]`), then persist the whole
remaining list, replacing any prior content. -/
def SaveHistory (snapshots : List Snapshot) : FileData :=
  marshalSnapshots
    (if snapshots.length > MaxHistoryEntries then
      snapshots.drop (snapshots.length - MaxHistoryEntries)
    else snapshots)

end Power

namespace Disk

/-- `MaxHistoryEntries` of the disk history store. -/
def MaxHistoryEntries : Nat := 500

/-- `HealthSnapshot` of the disk history store. -/
structure HealthSnapshot where
  timestamp : Int
  model : List Char
  smartStatus : List Char
  wearLevel : List Char
  dataWritten : List Char
  sizeBytes : Int
deriving DecidableEq, Repr

def encodeSnapshot (s : HealthSnapshot) : Json :=
  .obj [("timestamp", .str (intToChars s.timestamp)),
        ("model", .str s.model),
        ("smart_status", .str s.smartStatus),
        ("wear_level", .str s.wearLevel),
        ("data_written", .str s.dataWritten),
        ("size_bytes", .num s.sizeBytes)]

def decodeSnapshot : Json → Option HealthSnapshot
  | .null => some ⟨0, [], [], [], [], 0⟩
  | .obj fs => do
    let t ← decodeTimeField (jLookup fs "timestamp")
    let mo ← decodeStrField (jLookup fs "model")
    let ss ← decodeStrField (jLookup fs "smart_status")
    let wl ← decodeStrField (jLookup fs "wear_level")
    let dw ← decodeStrField (jLookup fs "data_written")
    let sb ← decodeIntField (jLookup fs "size_bytes")
    some ⟨t, mo, ss, wl, dw, sb⟩
  | _ => none

def decodeSnapshots : List Json → Option (List HealthSnapshot)
  | [] => some []
  | j :: js =>
    match decodeSnapshot j with
    | none => none
    | some s =>
      match decodeSnapshots js with
      | none => none
      | some l => some (s :: l)

def unmarshalSnapshots : FileData → Option (List HealthSnapshot)
  | .notJson _ => none
  | .json .null => some []
  | .json (.arr es) => decodeSnapshots es
  | .json _ => none

def marshalSnapshots (l : List HealthSnapshot) : FileData :=
  .json (.arr (l.map encodeSnapshot))

/-- `LoadHistory` of the disk history store (same mechanics as the power
store over the disk payload). -/
def LoadHistory (file : Option FileData) : Except Power.HistoryError (List HealthSnapshot) :=
  match file with
  | none => .ok []
  | some d =>
    match unmarshalSnapshots d with
    | some l => .ok l
    | none => .error .corruptHistory

/-- `SaveHistory` of the disk history store. -/
def SaveHistory (snapshots : List HealthSnapshot) : FileData :=
  marshalSnapshots
    (if snapshots.length > MaxHistoryEntries then
      snapshots.drop (snapshots.length - MaxHistoryEntries)
    else snapshots)

end Disk

/-! ## Theorems -/

/-- When every remaining event has the retained event's category and each is
within `w` of the running predecessor timestamp, the whole remainder merges
into the retained event. -/
theorem dedupGo_all_merge (w : Int) :
    ∀ (es : List PowerEvent) (cur : PowerEvent) (lastSeen : Int),
      (∀ x ∈ es, x.type = cur.type) →
      gapsWithin w lastSeen es = true →
      dedupGo w cur lastSeen es = [{ cur with count := cur.count + es.length }] := by
  intro es
  induction es with
  | nil => intro cur lastSeen _ _; simp [dedupGo]
  | cons e es ih =>
    intro cur lastSeen hty hgap
    have hte : e.type = cur.type := hty e (List.mem_cons_self e es)
    have hgap1 : e.timestamp - lastSeen ≤ w := by
      simp [gapsWithin] at hgap
      omega
    have hgap2 : gapsWithin w e.timestamp es = true := by
      simp [gapsWithin] at hgap
      exact hgap.2
    rw [dedupGo, if_pos ⟨hte, hgap1⟩]
    rw [ih { cur with count := cur.count + 1 } e.timestamp
      (fun x hx => hty x (List.mem_cons_of_mem e hx)) hgap2]
    simp
    omega

/-- C1: deduplication of a single same-category burst.  For every
chronologically ordered, non-empty event sequence sharing one category in
which each event is at most `w` after its immediate predecessor,
`DeduplicateEvents` returns exactly one event carrying the input length as
its occurrence count — the window slides with the most recently merged
timestamp, so the burst's total span may exceed `w` — and empty input
yields empty output. -/
theorem C1_dedup_single_burst (w : Int) :
    DeduplicateEvents [] w = [] ∧
    ∀ (e : PowerEvent) (es : List PowerEvent) (c : String),
      (∀ x ∈ e :: es, x.type = c) →
      chronOrdered (e :: es) = true →
      gapsWithin w e.timestamp es = true →
      DeduplicateEvents (e :: es) w = [⟨e.timestamp, c, e.detail, (e :: es).length⟩] := by
  refine ⟨rfl, ?_⟩
  intro e es c hty _ hgap
  have hce : e.type = c := hty e (List.mem_cons_self e es)
  rw [DeduplicateEvents, dedupGo_all_merge w es { e with count := 1 } e.timestamp
    (fun x hx => by rw [hty x (List.mem_cons_of_mem e hx)]; simp [hce]) hgap]
  simp [hce]
  omega

/-- Witness for C1 at a burst of three wake events at 0 s, 20 s and 40 s
with a 30 s window: consecutive gaps are within the window while the total
span (40 s) exceeds it, and one event with count 3 results. -/
theorem C1_witness :
    DeduplicateEvents
      [⟨0, EventWake, [], 1⟩, ⟨20000000000, EventWake, [], 1⟩,
       ⟨40000000000, EventWake, [], 1⟩] 30000000000 =
      [⟨0, EventWake, [], 3⟩] :=
  (C1_dedup_single_burst 30000000000).2 ⟨0, EventWake, [], 1⟩
    [⟨20000000000, EventWake, [], 1⟩, ⟨40000000000, EventWake, [], 1⟩]
    EventWake (by decide) (by decide) (by decide)

/-- C10: every event the classifier emits carries one of exactly the six
stable category strings; the additionally declared `EventPowerUnknown`
(`"power_event"`) is never produced by classification. -/
theorem C10_category_vocabulary :
    ∀ (l : List Char) (e : PowerEvent), parseLine l = some e →
      (e.type = EventWake ∨ e.type = EventSleep ∨ e.type = EventLidOpen ∨
        e.type = EventLidClose ∨ e.type = EventThermal ∨ e.type = EventPowerSource) ∧
      e.type ≠ EventPowerUnknown := by
  intro l e h
  unfold parseLine at h
  cases hm : matchTimestamp l with
  | none => rw [hm] at h; exact absurd h (by simp)
  | some p =>
    obtain ⟨m1, rest⟩ := p
    rw [hm] at h
    dsimp only at h
    cases hp : parseTimestamp m1 with
    | none => rw [hp] at h; exact absurd h (by simp)
    | some gt =>
      rw [hp] at h
      dsimp only at h
      split_ifs at h
      all_goals first
        | (rw [Option.some.injEq] at h
           subst h
           exact ⟨by simp [EventWake, EventSleep, EventLidOpen, EventLidClose,
               EventThermal, EventPowerSource],
             by simp [EventWake, EventSleep, EventLidOpen, EventLidClose,
               EventThermal, EventPowerSource, EventPowerUnknown]⟩)
        | exact absurd h (by simp)

/-- Witness for C10 at a concrete thermal-throttle log line. -/
theorem C10_witness :
    let e : PowerEvent :=
      ⟨goTimeToNanos ⟨2025, 1, 15, 10, 30, 45, 123000000, none⟩, EventThermal,
        strChars "Df powerd[323:1a2b] [com.apple.powerd:thermal] Thermal pressure throttling CPU", 1⟩
    (e.type = EventWake ∨ e.type = EventSleep ∨ e.type = EventLidOpen ∨
      e.type = EventLidClose ∨ e.type = EventThermal ∨ e.type = EventPowerSource) ∧
    e.type ≠ EventPowerUnknown :=
  C10_category_vocabulary
    (strChars "2025-01-15 10:30:45.123 Df powerd[323:1a2b] [com.apple.powerd:thermal] Thermal pressure throttling CPU")
    ⟨goTimeToNanos ⟨2025, 1, 15, 10, 30, 45, 123000000, none⟩, EventThermal,
      strChars "Df powerd[323:1a2b] [com.apple.powerd:thermal] Thermal pressure throttling CPU", 1⟩
    (by decide)

/-- Input for the C3 counterexample: a two-space run followed by a
201-character tail. -/
def c3Input : List Char := strChars "x  " ++ List.replicate 201 'c'

set_option maxRecDepth 40000 in
/-- C3 counterexample: when the detail is taken from the text after the
two-space split, a 201-character detail is returned whole — longer than
200 characters and without an ellipsis marker — refuting the claim that
the extracted detail is always truncated at 200 characters. -/
theorem C3_counterexample :
    extractDetail c3Input = List.replicate 201 'c' ∧
    200 < (extractDetail c3Input).length ∧
    (strChars "...").isSuffixOf (extractDetail c3Input) = false := by
  refine ⟨by decide, by decide, by decide⟩

/-- C3 (amended): the 200-character truncation with ellipsis applies only
when the line has no two-space run; a detail taken from the text after the
metadata-prefix split is returned whitespace-trimmed and never truncated. -/
theorem C3_truncation_only_without_split :
    (∀ s : List Char, splitTwoSpace s = none → 200 < s.length →
      extractDetail s = s.take 200 ++ strChars "...") ∧
    (∀ s pre post, splitTwoSpace s = some (pre, post) →
      extractDetail s = trimSpace post) := by
  constructor
  · intro s h hl
    simp [extractDetail, h, hl]
  · intro s pre post h
    simp [extractDetail, h]

set_option maxRecDepth 40000 in
/-- Witness for C3: both branches at concrete inputs. -/
theorem C3_witness :
    extractDetail (List.replicate 201 'a') =
      (List.replicate 201 'a').take 200 ++ strChars "..." ∧
    extractDetail (strChars "a  b") = trimSpace (strChars "b") :=
  ⟨C3_truncation_only_without_split.1 (List.replicate 201 'a') (by decide) (by decide),
   C3_truncation_only_without_split.2 (strChars "a  b") (strChars "a") (strChars "b") (by decide)⟩

/-- C4: evaluating the classifier at the spec's example line.  The category
is `wake` as claimed, but the emitted detail is the whole remainder
`"Df powerd[1:1] [x] Wake Reason: EC.LidOpen"`: the line has no two-space
run, so `extractDetail`'s split never fires and no metadata prefix is
stripped — contradicting the repository's own `TestExtractDetail`, which
expects single-space compact-format prefixes to be stripped. -/
theorem C4_example_line_detail_not_stripped :
    parseLine (strChars "2025-01-15 10:30:45.123 Df powerd[1:1] [x] Wake Reason: EC.LidOpen") =
      some ⟨goTimeToNanos ⟨2025, 1, 15, 10, 30, 45, 123000000, none⟩, EventWake,
        strChars "Df powerd[1:1] [x] Wake Reason: EC.LidOpen", 1⟩ ∧
    strChars "Df powerd[1:1] [x] Wake Reason: EC.LidOpen" ≠
      strChars "Wake Reason: EC.LidOpen" := by
  refine ⟨by decide, by decide⟩

/-- C6 counterexample: a line whose leading timestamp omits fractional
seconds is discarded by the classifier even though its content contains the
`wake` keyword group — the leading-timestamp pattern requires `\.\d+`. -/
theorem C6_counterexample :
    parseLine (strChars "2025-01-15 10:30:45 Df powerd[1:1] [x] Wake Reason: EC.LidOpen") = none ∧
    containsSub
      ((strChars "2025-01-15 10:30:45 Df powerd[1:1] [x] Wake Reason: EC.LidOpen").map Char.toLower)
      (strChars "wake reason") = true := by
  refine ⟨by decide, by decide⟩

/-- Every fractional part matched by `matchFrac` starts with the dot. -/
theorem matchFrac_shape :
    ∀ l f r, matchFrac l = some (f, r) → ∃ ds, f = '.' :: ds := by
  intro l f r h
  match l with
  | [] => simp [matchFrac] at h
  | c :: l1 =>
    rw [matchFrac] at h
    by_cases hc : c = '.'
    · rw [if_pos hc] at h
      cases hd : takeDigits1 l1 with
      | none => rw [hd] at h; cases h
      | some p =>
        obtain ⟨ds, r'⟩ := p
        rw [hd] at h
        simp at h
        exact ⟨ds, by rw [← h.1, hc]⟩
    · rw [if_neg hc] at h
      cases h

/-- C6 (amended): the leading-timestamp match requires fractional seconds —
every matched timestamp text contains a dot, so a line omitting fractional
seconds never matches and is discarded — while the signed 4-digit UTC
offset is genuinely optional: lines with fractional seconds classify both
with and without an offset. -/
theorem C6_fraction_required_offset_optional :
    (∀ l m1 rest, matchTimestamp l = some (m1, rest) → '.' ∈ m1) ∧
    (parseLine (strChars "2025-01-15 10:30:45.123456-0800  0x1  Default  com.apple.powerd  Wake Reason: EC.LidOpen")).map
        PowerEvent.type = some EventWake ∧
    (parseLine (strChars "2025-01-15 10:30:45.123 Df powerd[323:1a2b] [x] DarkWake from Deep Idle")).map
        PowerEvent.type = some EventWake := by
  refine ⟨?_, by decide, by decide⟩
  intro l m1 rest h
  unfold matchTimestamp at h
  cases h1 : matchDate l with
  | none => rw [h1] at h; cases h
  | some p1 =>
    obtain ⟨d, l1⟩ := p1
    rw [h1] at h
    dsimp only at h
    cases h2 : takeSpaces1 l1 with
    | none => rw [h2] at h; cases h
    | some p2 =>
      obtain ⟨sp, l2⟩ := p2
      rw [h2] at h
      dsimp only at h
      cases h3 : matchTime l2 with
      | none => rw [h3] at h; cases h
      | some p3 =>
        obtain ⟨t, l3⟩ := p3
        rw [h3] at h
        dsimp only at h
        cases h4 : matchFrac l3 with
        | none => rw [h4] at h; cases h
        | some p4 =>
          obtain ⟨f, l4⟩ := p4
          rw [h4] at h
          dsimp only at h
          cases h5 : matchOffsetSpaces l4 with
          | none => rw [h5] at h; cases h
          | some p5 =>
            obtain ⟨off, r⟩ := p5
            rw [h5] at h
            simp at h
            obtain ⟨ds, hds⟩ := matchFrac_shape l3 f l4 h4
            rw [← h.1, hds]
            simp

/-- Witness for C6: the universally quantified part applied at a concrete
matching line. -/
theorem C6_witness : '.' ∈ strChars "2025-01-15 10:30:45.123" :=
  C6_fraction_required_offset_optional.1
    (strChars "2025-01-15 10:30:45.123 a") (strChars "2025-01-15 10:30:45.123")
    (strChars "a") (by decide)

/-- C5 counterexample: `ParseDuration "1h30m"` does not return an error —
it returns 1 minute, because `Sscanf`'s `%d` verb reads the leading integer
`1` from `"1h30"` and ignores the rest, and the final byte `'m'` is a valid
unit. -/
theorem C5_counterexample : ParseDuration (strChars "1h30m") ≠ none := by decide

/-- C5 (amended): compound and fractional duration strings whose leading
characters scan as a positive integer are not rejected: the numeric scan
takes the leading integer and drops the remainder, so `"1h30m"` yields
1 minute and `"1.5h"` yields 1 hour. -/
theorem C5_compound_durations_accepted :
    ParseDuration (strChars "1h30m") = some minuteNs ∧
    ParseDuration (strChars "1.5h") = some hourNs := by
  refine ⟨by decide, by decide⟩

/-- A list of digit characters is taken whole by `takeWhile`/`dropWhile`. -/
theorem takeWhile_all {p : Char → Bool} :
    ∀ l : List Char, (∀ x ∈ l, p x = true) →
      l.takeWhile p = l ∧ l.dropWhile p = [] := by
  intro l h
  induction l with
  | nil => simp
  | cons a l ih =>
    have ha : p a = true := h a (List.mem_cons_self a l)
    have ⟨h1, h2⟩ := ih (fun x hx => h x (List.mem_cons_of_mem a hx))
    rw [List.takeWhile_cons, List.dropWhile_cons]
    simp [ha, h1, h2]

/-- A digit character is not a space, a tab, a sign or a dash. -/
theorem isDigitCh_props (c : Char) (h : isDigitCh c = true) :
    (c.toNat = 32 || c.toNat = 9) = false ∧ c ≠ '+' ∧ c ≠ '-' := by
  simp [isDigitCh] at h
  refine ⟨by simp; omega, fun he => ?_, fun he => ?_⟩
  · subst he
    have h43 : ('+' : Char).toNat = 43 := by decide
    omega
  · subst he
    have h45 : ('-' : Char).toNat = 45 := by decide
    omega

/-- `readNat` consumes the full decimal representation of `n`. -/
theorem readNat_natToChars (n : Nat) : readNat (natToChars n) = some (n, []) := by
  have hd := natToChars_digits n
  have hne := natToChars_ne_nil n
  match h : natToChars n with
  | [] => exact absurd h hne
  | c :: r =>
    have hall : ∀ x ∈ c :: r, isDigitCh x = true := by rw [← h]; exact hd
    have hc : isDigitCh c = true := hall c (List.mem_cons_self c r)
    obtain ⟨ht, hdr⟩ := takeWhile_all (c :: r) hall
    rw [readNat, if_pos hc, ht, hdr, ← h, charsVal_natToChars]

/-- `Sscanf`'s `%d` reads back exactly the decimal representation of an
in-range natural number. -/
theorem sscanfInt_natToChars (n : Nat) (h : n ≤ int64MaxN) :
    sscanfInt (natToChars n) = some (n : Int) := by
  have hd := natToChars_digits n
  have hne := natToChars_ne_nil n
  match hn : natToChars n with
  | [] => exact absurd hn hne
  | c :: r =>
    have hall : ∀ x ∈ c :: r, isDigitCh x = true := by rw [← hn]; exact hd
    have hc : isDigitCh c = true := hall c (List.mem_cons_self c r)
    obtain ⟨hns, hcp, hcm⟩ := isDigitCh_props c hc
    rw [sscanfInt]
    have hdw : (c :: r).dropWhile (fun c => c.toNat = 32 || c.toNat = 9) = c :: r := by
      rw [List.dropWhile_cons]
      simp only [hns]
      simp
    simp only [hdw]
    rw [if_neg hcp, if_neg hcm, ← hn, readNat_natToChars]
    simp [h]

theorem wrap64_eq (x : Int) (h1 : -(9223372036854775808 : Int) ≤ x)
    (h2 : x ≤ 9223372036854775807) : wrap64 x = x := by
  unfold wrap64
  omega

/-- C7 (amended): for every positive `n` whose product with the unit length
fits in `int64`, `ParseDuration` of `n`'s decimal string followed by `m`,
`h` or `d` returns exactly `n` minutes, `n` hours or `n × 24` hours; and
`"0h"`, `"-5h"`, `"10s"`, `""` and `"h"` all fail.  (Beyond the `int64`
range the `%d` scan fails or the product wraps.) -/
theorem C7_parseDuration_forms (n : Nat) (hpos : 0 < n) :
    ((n : Int) * minuteNs ≤ (int64MaxN : Int) →
      ParseDuration (natToChars n ++ ['m']) = some ((n : Int) * minuteNs)) ∧
    ((n : Int) * hourNs ≤ (int64MaxN : Int) →
      ParseDuration (natToChars n ++ ['h']) = some ((n : Int) * hourNs)) ∧
    ((n : Int) * 24 * hourNs ≤ (int64MaxN : Int) →
      ParseDuration (natToChars n ++ ['d']) = some ((n : Int) * 24 * hourNs)) ∧
    ParseDuration (strChars "0h") = none ∧
    ParseDuration (strChars "-5h") = none ∧
    ParseDuration (strChars "10s") = none ∧
    ParseDuration (strChars "") = none ∧
    ParseDuration (strChars "h") = none := by
  have hlen : ¬ (natToChars n ++ ['m']).length < 2 := by
    have := natToChars_ne_nil n
    have : 1 ≤ (natToChars n).length := by
      cases h : natToChars n with
      | nil => exact absurd h this
      | cons a l => simp
    simp
    omega
  have hlen2 : ∀ u : Char, (natToChars n ++ [u]).length = (natToChars n ++ ['m']).length := by
    intro u; simp
  have hnum : ∀ u : Char, n ≤ int64MaxN →
      ParseDuration (natToChars n ++ [u]) =
        (if u = 'm' then some (wrap64 ((n : Int) * minuteNs))
         else if u = 'h' then some (wrap64 ((n : Int) * hourNs))
         else if u = 'd' then some (wrap64 (wrap64 ((n : Int) * 24) * hourNs))
         else none) := by
    intro u hle
    rw [ParseDuration, if_neg (by rw [hlen2 u]; exact hlen)]
    rw [List.getLast?_concat, List.dropLast_concat, sscanfInt_natToChars n hle]
    dsimp only
    rw [if_neg (show ¬((n : Int) ≤ 0) by omega)]
  have hmv : minuteNs = 60000000000 := rfl
  have hhv : hourNs = 3600000000000 := rfl
  have hMv : int64MaxN = 9223372036854775807 := rfl
  refine ⟨?_, ?_, ?_, by decide, by decide, by decide, by decide, by decide⟩
  · intro hb
    rw [hmv] at hb
    rw [hMv] at hb
    push_cast at hb
    have hle : n ≤ int64MaxN := by rw [hMv]; omega
    rw [hnum 'm' hle, if_pos (rfl : ('m' : Char) = 'm'),
      wrap64_eq ((n : Int) * minuteNs) (by rw [hmv]; omega) (by rw [hmv]; omega)]
  · intro hb
    rw [hhv] at hb
    rw [hMv] at hb
    push_cast at hb
    have hle : n ≤ int64MaxN := by rw [hMv]; omega
    rw [hnum 'h' hle, if_neg (show ('h' : Char) ≠ 'm' by decide),
      if_pos (rfl : ('h' : Char) = 'h'),
      wrap64_eq ((n : Int) * hourNs) (by rw [hhv]; omega) (by rw [hhv]; omega)]
  · intro hb
    rw [hhv] at hb
    rw [hMv] at hb
    push_cast at hb
    have hle : n ≤ int64MaxN := by rw [hMv]; omega
    rw [hnum 'd' hle, if_neg (show ('d' : Char) ≠ 'm' by decide),
      if_neg (show ('d' : Char) ≠ 'h' by decide),
      if_pos (rfl : ('d' : Char) = 'd'),
      wrap64_eq ((n : Int) * 24) (by omega) (by omega),
      wrap64_eq ((n : Int) * 24 * hourNs) (by rw [hhv]; omega) (by rw [hhv]; omega)]

/-- Witness for C7: the three unit forms at `n = 7` and the error cases. -/
theorem C7_witness :
    ParseDuration (natToChars 7 ++ ['m']) = some ((7 : Int) * minuteNs) ∧
    ParseDuration (natToChars 7 ++ ['h']) = some ((7 : Int) * hourNs) ∧
    ParseDuration (natToChars 7 ++ ['d']) = some ((7 : Int) * 24 * hourNs) ∧
    ParseDuration (strChars "0h") = none :=
  ⟨(C7_parseDuration_forms 7 (by decide)).1 (by decide),
   (C7_parseDuration_forms 7 (by decide)).2.1 (by decide),
   (C7_parseDuration_forms 7 (by decide)).2.2.1 (by decide),
   (C7_parseDuration_forms 7 (by decide)).2.2.2.1⟩

/-- C7 counterexample: for `n = 2^63` (out of `int64` range) the claim's
promised success fails — the `%d` scan overflows and `ParseDuration`
returns an error, not `2^63` hours. -/
theorem C7_counterexample :
    ParseDuration (strChars "9223372036854775808h") = none := by decide

/-- Decoding inverts the decimal instant encoding. -/
theorem decodeDecimal_intToChars (t : Int) : decodeDecimal (intToChars t) = some t := by
  unfold intToChars
  split
  · rename_i hneg
    rw [decodeDecimal, if_pos rfl, readNat_natToChars]
    simp [Int.ofNat_natAbs_of_nonpos (le_of_lt hneg)]
  · rename_i hpos
    have hd := natToChars_digits t.natAbs
    have hne := natToChars_ne_nil t.natAbs
    match hn : natToChars t.natAbs with
    | [] => exact absurd hn hne
    | c :: r =>
      have hc : isDigitCh c = true := by
        refine hd c ?_
        rw [hn]
        exact List.mem_cons_self c r
      obtain ⟨-, -, hcm⟩ := isDigitCh_props c hc
      rw [decodeDecimal, if_neg hcm, ← hn, readNat_natToChars]
      simp [Int.natAbs_of_nonneg (not_lt.mp hpos)]

namespace Power

/-- The snapshot codec round-trips. -/
theorem decodeSnapshot_encodeSnapshot (s : Snapshot) :
    decodeSnapshot (encodeSnapshot s) = some s := by
  obtain ⟨t, bp, ch, cc, mc, te, tl⟩ := s
  simp [encodeSnapshot, decodeSnapshot, jLookup, decodeTimeField, decodeIntField,
    decodeBoolField, decodeStrField, decodeDecimal_intToChars, Option.bind]

theorem decodeSnapshots_encode (l : List Snapshot) :
    decodeSnapshots (l.map encodeSnapshot) = some l := by
  induction l with
  | nil => rfl
  | cons a l ih => simp [decodeSnapshots, decodeSnapshot_encodeSnapshot, ih]

theorem unmarshal_marshal (l : List Snapshot) :
    unmarshalSnapshots (marshalSnapshots l) = some l := by
  simp [marshalSnapshots, unmarshalSnapshots, decodeSnapshots_encode]

theorem load_save (l : List Snapshot) :
    LoadHistory (some (SaveHistory l)) =
      .ok (if MaxHistoryEntries < l.length then l.drop (l.length - MaxHistoryEntries)
           else l) := by
  rw [SaveHistory]
  split
  · simp [LoadHistory, unmarshal_marshal]
  · simp [LoadHistory, unmarshal_marshal]

end Power

namespace Disk

theorem decodeHealth_encodeHealth (s : HealthSnapshot) :
    decodeSnapshot (encodeSnapshot s) = some s := by
  obtain ⟨t, mo, ss, wl, dw, sb⟩ := s
  simp [encodeSnapshot, decodeSnapshot, jLookup, decodeTimeField, decodeIntField,
    decodeStrField, decodeDecimal_intToChars, Option.bind]

theorem decodeHealthList_encode (l : List HealthSnapshot) :
    decodeSnapshots (l.map encodeSnapshot) = some l := by
  induction l with
  | nil => rfl
  | cons a l ih => simp [decodeSnapshots, decodeHealth_encodeHealth, ih]

theorem unmarshalHealth_marshal (l : List HealthSnapshot) :
    unmarshalSnapshots (marshalSnapshots l) = some l := by
  simp [marshalSnapshots, unmarshalSnapshots, decodeHealthList_encode]

theorem loadHealth_save (l : List HealthSnapshot) :
    LoadHistory (some (SaveHistory l)) =
      .ok (if MaxHistoryEntries < l.length then l.drop (l.length - MaxHistoryEntries)
           else l) := by
  rw [SaveHistory]
  split
  · simp [LoadHistory, unmarshalHealth_marshal]
  · simp [LoadHistory, unmarshalHealth_marshal]

end Disk

/-- C9: round-trip identity up to trimming, for both stores: loading what
`SaveHistory` persisted returns exactly the input list trimmed to its most
recent `MaxHistoryEntries` elements, in content and order. -/
theorem C9_roundtrip_up_to_trim :
    (∀ l : List Power.Snapshot,
      Power.LoadHistory (some (Power.SaveHistory l)) =
        .ok (if Power.MaxHistoryEntries < l.length then
              l.drop (l.length - Power.MaxHistoryEntries)
             else l)) ∧
    (∀ l : List Disk.HealthSnapshot,
      Disk.LoadHistory (some (Disk.SaveHistory l)) =
        .ok (if Disk.MaxHistoryEntries < l.length then
              l.drop (l.length - Disk.MaxHistoryEntries)
             else l)) :=
  ⟨Power.load_save, Disk.loadHealth_save⟩

/-- C2: after a save the persisted history holds at most
`MaxHistoryEntries` (500) entries; a longer input is cut to exactly its
most recent 500 entries in their original order (truncation from the
front), and a short input is persisted unchanged — for both stores. -/
theorem C2_save_trims_to_bound :
    (∀ l : List Power.Snapshot, ∃ t,
      Power.LoadHistory (some (Power.SaveHistory l)) = .ok t ∧
      t.length ≤ Power.MaxHistoryEntries ∧
      (l.length ≤ Power.MaxHistoryEntries → t = l) ∧
      (Power.MaxHistoryEntries < l.length →
        t = l.drop (l.length - Power.MaxHistoryEntries))) ∧
    (∀ l : List Disk.HealthSnapshot, ∃ t,
      Disk.LoadHistory (some (Disk.SaveHistory l)) = .ok t ∧
      t.length ≤ Disk.MaxHistoryEntries ∧
      (l.length ≤ Disk.MaxHistoryEntries → t = l) ∧
      (Disk.MaxHistoryEntries < l.length →
        t = l.drop (l.length - Disk.MaxHistoryEntries))) := by
  constructor
  · intro l
    by_cases hl : Power.MaxHistoryEntries < l.length
    · refine ⟨l.drop (l.length - Power.MaxHistoryEntries), ?_, ?_, ?_, fun _ => rfl⟩
      · rw [Power.load_save, if_pos hl]
      · rw [List.length_drop]; omega
      · intro h; omega
    · refine ⟨l, ?_, by omega, fun _ => rfl, fun h => absurd h hl⟩
      rw [Power.load_save, if_neg hl]
  · intro l
    by_cases hl : Disk.MaxHistoryEntries < l.length
    · refine ⟨l.drop (l.length - Disk.MaxHistoryEntries), ?_, ?_, ?_, fun _ => rfl⟩
      · rw [Disk.loadHealth_save, if_pos hl]
      · rw [List.length_drop]; omega
      · intro h; omega
    · refine ⟨l, ?_, by omega, fun _ => rfl, fun h => absurd h hl⟩
      rw [Disk.loadHealth_save, if_neg hl]

/-- A zero-valued snapshot, input for the C2 witness. -/
def c2Snap : Power.Snapshot := ⟨0, 0, false, 0, 0, 0, []⟩

/-- Witness for C2: saving 501 identical snapshots leaves exactly the most
recent 500 — the input with its first element dropped. -/
theorem C2_witness :
    ∃ t, Power.LoadHistory (some (Power.SaveHistory (List.replicate 501 c2Snap))) = .ok t ∧
      t.length ≤ Power.MaxHistoryEntries ∧
      t = (List.replicate 501 c2Snap).drop 1 := by
  obtain ⟨t, h1, h2, -, h4⟩ := C2_save_trims_to_bound.1 (List.replicate 501 c2Snap)
  have hlen : (List.replicate 501 c2Snap).length = 501 := List.length_replicate 501 c2Snap
  have hlt : Power.MaxHistoryEntries < (List.replicate 501 c2Snap).length := by
    rw [hlen]
    norm_num [Power.MaxHistoryEntries]
  refine ⟨t, h1, h2, ?_⟩
  have h5 := h4 hlt
  rw [hlen] at h5
  norm_num [Power.MaxHistoryEntries] at h5
  exact h5

/-- C8 counterexample: a present history file whose content is the JSON
value `null` — not a JSON array at all — loads as an empty history with no
error (Go `json.Unmarshal` leaves the slice `nil` for `null`), for both
stores; the claim requires a `CorruptHistory` failure for such content. -/
theorem C8_counterexample :
    Power.LoadHistory (some (FileData.json Json.null)) = .ok [] ∧
    Disk.LoadHistory (some (FileData.json Json.null)) = .ok [] :=
  ⟨rfl, rfl⟩

/-- C8 (amended): an absent file loads as an empty history with no error;
a present file whose content is not valid JSON, or whose top-level value is
a boolean, number, string or object, or an array whose element is a bare
number, fails with `CorruptHistory` — and a failed load returns no data —
but top-level JSON `null` is the exception: it loads as an empty history
without error.  Both stores behave alike. -/
theorem C8_absent_empty_malformed_corrupt :
    Power.LoadHistory none = .ok [] ∧
    (∀ s, Power.LoadHistory (some (FileData.notJson s)) = .error .corruptHistory) ∧
    (∀ b, Power.LoadHistory (some (.json (.bool b))) = .error .corruptHistory) ∧
    (∀ x : Int, Power.LoadHistory (some (.json (.num x))) = .error .corruptHistory) ∧
    (∀ s, Power.LoadHistory (some (.json (.str s))) = .error .corruptHistory) ∧
    (∀ fs, Power.LoadHistory (some (.json (.obj fs))) = .error .corruptHistory) ∧
    (∀ (x : Int) (js : List Json),
      Power.LoadHistory (some (.json (.arr (.num x :: js)))) = .error .corruptHistory) ∧
    Power.LoadHistory (some (.json .null)) = .ok [] ∧
    Disk.LoadHistory none = .ok [] ∧
    (∀ s, Disk.LoadHistory (some (FileData.notJson s)) = .error .corruptHistory) ∧
    (∀ x : Int, Disk.LoadHistory (some (.json (.num x))) = .error .corruptHistory) ∧
    (∀ (x : Int) (js : List Json),
      Disk.LoadHistory (some (.json (.arr (.num x :: js)))) = .error .corruptHistory) ∧
    Disk.LoadHistory (some (.json .null)) = .ok [] := by
  refine ⟨rfl, fun s => rfl, fun b => rfl, fun x => rfl, fun s => rfl, fun fs => rfl,
    fun x js => rfl, rfl, rfl, fun s => rfl, fun x => rfl, fun x js => rfl, rfl⟩

end Macctl
